import Mathlib

/-!
Verification development for the repository-analysis pipeline of `autopilotdev`.

The definitions below are a shallow embedding of the JavaScript sources:
  * `backend/src/services/repoAnalyzer.js` (class `RepoAnalyzer`)
  * `backend/src/services/ai/openaiService.js` (class `OpenAIService`)
  * `backend/src/controllers/analyzeController.js` (class `AnalyzeController`)
  * `backend/models/Analysis.js` (the `analysisSchema` and its methods)

The file system is modelled as a pure tree (`FsEntry`), `JSON.parse` is
modelled by an executable JSON parser (`jsonParse`), `child_process.exec`
is modelled by an oracle from command strings to outcomes, and thrown
JavaScript exceptions are modelled with `Except`.
-/

namespace AutoPilot

/-! ## A model of JavaScript JSON values and of `JSON.parse` -/

/-- JSON values as produced by `JSON.parse`.  Numbers keep their raw lexeme:
no claim inspects numeric values, only shapes and string contents. -/
inductive Js where
  | null
  | bool (b : Bool)
  | num (lex : String)
  | str (s : String)
  | arr (elems : List Js)
  | obj (fields : List (String × Js))

/-- Combine an object member with the already-parsed later members, the way
`JSON.parse` builds objects: a duplicate key keeps its first position but
takes the later value. -/
def consField (key : String) (v : Js) (fields : List (String × Js)) :
    List (String × Js) :=
  match fields.lookup key with
  | some w => (key, w) :: fields.eraseP (fun f => f.1 = key)
  | none => (key, v) :: fields

def isWs (c : Char) : Bool :=
  c = ' ' || c = '\t' || c = '\n' || c = '\r'

def skipWs (cs : List Char) : List Char := cs.dropWhile isWs

def isHexDigit (c : Char) : Bool :=
  c.isDigit || ('a' ≤ c && c ≤ 'f') || ('A' ≤ c && c ≤ 'F')

def hexVal (c : Char) : Nat :=
  if c.isDigit then c.toNat - '0'.toNat
  else if 'a' ≤ c && c ≤ 'f' then c.toNat - 'a'.toNat + 10
  else c.toNat - 'A'.toNat + 10

/-- Parse the body of a JSON string literal (after the opening quote),
handling the JSON escape sequences. -/
def parseStringBody : Nat → List Char → Option (List Char × List Char)
  | 0, _ => none
  | _, [] => none
  | fuel + 1, c :: rest =>
    if c = '"' then some ([], rest)
    else if c = '\\' then
      match rest with
      | [] => none
      | e :: rest2 =>
        let cont (decoded : Char) (after : List Char) : Option (List Char × List Char) :=
          match parseStringBody fuel after with
          | some (body, r) => some (decoded :: body, r)
          | none => none
        if e = '"' then cont '"' rest2
        else if e = '\\' then cont '\\' rest2
        else if e = '/' then cont '/' rest2
        else if e = 'b' then cont (Char.ofNat 8) rest2
        else if e = 'f' then cont (Char.ofNat 12) rest2
        else if e = 'n' then cont '\n' rest2
        else if e = 'r' then cont '\r' rest2
        else if e = 't' then cont '\t' rest2
        else if e = 'u' then
          match rest2 with
          | h1 :: h2 :: h3 :: h4 :: rest3 =>
            if isHexDigit h1 && isHexDigit h2 && isHexDigit h3 && isHexDigit h4 then
              cont (Char.ofNat
                (((hexVal h1 * 16 + hexVal h2) * 16 + hexVal h3) * 16 + hexVal h4)) rest3
            else none
          | _ => none
        else none
    else if c.toNat < 32 then none
    else
      match parseStringBody fuel rest with
      | some (body, r) => some (c :: body, r)
      | none => none

/-- Parse an optional exponent suffix of a JSON number lexeme. -/
def finishExp (acc : List Char) (cs : List Char) : Option (List Char × List Char) :=
  match cs with
  | e :: rest =>
    if e = 'e' || e = 'E' then
      let (esign, rest1) :=
        match rest with
        | '+' :: r => ((['+'] : List Char), r)
        | '-' :: r => ((['-'] : List Char), r)
        | _ => ([], rest)
      let digits := rest1.takeWhile Char.isDigit
      if digits.isEmpty then none
      else some (acc ++ e :: (esign ++ digits), rest1.dropWhile Char.isDigit)
    else some (acc, cs)
  | [] => some (acc, [])

/-- Parse a JSON number lexeme: `-?int(.digits)?([eE][+-]?digits)?`,
where the integer part may not have a leading zero. -/
def parseNumberLex (cs : List Char) : Option (List Char × List Char) :=
  let (sign, cs1) :=
    match cs with
    | '-' :: rest => ((['-'] : List Char), rest)
    | _ => ([], cs)
  let intPart := cs1.takeWhile Char.isDigit
  let cs2 := cs1.dropWhile Char.isDigit
  if intPart.isEmpty then none
  else if intPart.head? == some '0' && intPart.length > 1 then none
  else
    match cs2 with
    | '.' :: rest =>
      let digits := rest.takeWhile Char.isDigit
      if digits.isEmpty then none
      else finishExp (sign ++ intPart ++ '.' :: digits) (rest.dropWhile Char.isDigit)
    | _ => finishExp (sign ++ intPart) cs2

mutual

/-- Recursive-descent JSON value parser (fuel-indexed for termination). -/
def parseVal : Nat → List Char → Option (Js × List Char)
  | 0, _ => none
  | fuel + 1, cs =>
    match skipWs cs with
    | [] => none
    | c :: rest =>
      if c = '"' then
        match parseStringBody (fuel + 1) rest with
        | some (body, r) => some (Js.str body.asString, r)
        | none => none
      else if c = '{' then
        match skipWs rest with
        | '}' :: r => some (Js.obj [], r)
        | _ =>
          match parseFields fuel rest with
          | some (fields, r) => some (Js.obj fields, r)
          | none => none
      else if c = '[' then
        match skipWs rest with
        | ']' :: r => some (Js.arr [], r)
        | _ =>
          match parseElems fuel rest with
          | some (elems, r) => some (Js.arr elems, r)
          | none => none
      else if c = 't' then
        match rest with
        | 'r' :: 'u' :: 'e' :: r => some (Js.bool true, r)
        | _ => none
      else if c = 'f' then
        match rest with
        | 'a' :: 'l' :: 's' :: 'e' :: r => some (Js.bool false, r)
        | _ => none
      else if c = 'n' then
        match rest with
        | 'u' :: 'l' :: 'l' :: r => some (Js.null, r)
        | _ => none
      else
        match parseNumberLex (c :: rest) with
        | some (lex, r) => some (Js.num lex.asString, r)
        | none => none

/-- Parse one or more comma-separated array elements. -/
def parseElems : Nat → List Char → Option (List Js × List Char)
  | 0, _ => none
  | fuel + 1, cs =>
    match parseVal fuel cs with
    | none => none
    | some (v, rest) =>
      match skipWs rest with
      | ',' :: rest2 =>
        match parseElems fuel rest2 with
        | some (vs, r) => some (v :: vs, r)
        | none => none
      | ']' :: rest2 => some ([v], rest2)
      | _ => none

/-- Parse one or more comma-separated object members. -/
def parseFields : Nat → List Char → Option (List (String × Js) × List Char)
  | 0, _ => none
  | fuel + 1, cs =>
    match skipWs cs with
    | '"' :: rest =>
      match parseStringBody (fuel + 1) rest with
      | none => none
      | some (keyBody, rest1) =>
        match skipWs rest1 with
        | ':' :: rest2 =>
          match parseVal fuel rest2 with
          | none => none
          | some (v, rest3) =>
            match skipWs rest3 with
            | ',' :: rest4 =>
              match parseFields fuel rest4 with
              | some (fields, r) => some (consField keyBody.asString v fields, r)
              | none => none
            | '}' :: rest4 => some ([(keyBody.asString, v)], rest4)
            | _ => none
        | _ => none
    | _ => none

end

/-- Model of JavaScript `JSON.parse`: `none` models a thrown `SyntaxError`. -/
def jsonParse (s : String) : Option Js :=
  match parseVal (2 * s.length + 8) s.toList with
  | some (v, rest) => if (skipWs rest).isEmpty then some v else none
  | none => none

/-- Member lookup on an object value. -/
def Js.lookup (j : Js) (key : String) : Option Js :=
  match j with
  | .obj fields => fields.lookup key
  | _ => none

/-- The keys of a JSON object, in order (`Object.keys`). -/
def Js.topKeys (j : Js) : List String :=
  match j with
  | .obj fields => fields.map Prod.fst
  | _ => []

/-- JavaScript truthiness of a value, as used by `if (packageJson.dependencies)`.
For numbers we test whether the mantissa has a nonzero digit (float underflow
of tiny exponents is not modelled; no manifest in any claim carries numbers). -/
def jsTruthy (j : Js) : Bool :=
  match j with
  | .null => false
  | .bool b => b
  | .str s => !s.isEmpty
  | .num lex =>
      ((lex.toList.takeWhile (fun c => c != 'e' && c != 'E')).any
        (fun c => c.isDigit && c != '0'))
  | .arr _ => true
  | .obj _ => true

/-- `Object.entries`: fields of an object, indexed elements of an array,
indexed characters of a string, and `[]` for every other primitive. -/
def jsEntries (j : Js) : List (String × Js) :=
  match j with
  | .obj fields => fields
  | .arr elems => (elems.enum.map (fun p => (toString p.1, p.2)))
  | .str s => (s.toList.enum.map (fun p => (toString p.1, Js.str (String.mk [p.2]))))
  | _ => []

/-! ## A model of the cloned workspace tree

`fs.readdirSync(dir, { withFileTypes: true })` over the cloned repository is
modelled by a pure tree.  A file's `content` is the string that
`fs.readFileSync(path, 'utf8')` returns; `none` models a read that throws
(the `catch` in `calculateMetrics` labels these "binary files"). -/

mutual

inductive FsEntry where
  | file (name : String) (content : Option String)
  | dir (name : String) (entries : FsForest)

/-- A directory listing (the nested lists of the tree, as a mutual
inductive so that the walks below are structurally recursive). -/
inductive FsForest where
  | nil
  | cons (head : FsEntry) (tail : FsForest)

end

/-- `statSync(path).size`, modelled as the UTF-8 byte size of the content
(0 for an unreadable file). -/
def FsEntry.statSize (content : Option String) : Nat :=
  (content.getD "").utf8ByteSize

/-- `ext.toLowerCase()` for extension strings, character by character
(ASCII; extensions contain no multi-byte case mappings). -/
def lowerChar (c : Char) : Char :=
  if 'A' ≤ c ∧ c ≤ 'Z' then Char.ofNat (c.toNat + 32) else c

def lowerStr (s : String) : String :=
  (s.toList.map lowerChar).asString

/-- `path.extname(name)` on a basename: the suffix from the last `.`,
empty when there is no dot or when the only dot is the leading character. -/
def extname (name : String) : String :=
  let cs := name.toList
  let tail := cs.reverse.takeWhile (fun c => c != '.')
  if tail.length + 1 > cs.length then ""          -- no dot at all
  else if tail.length + 1 = cs.length then ""     -- the dot is the first char
  else ('.' :: tail.reverse).asString

/-- `repoAnalyzer.isTextFile`: every extension outside a closed deny-list. -/
def isTextFile (filename : String) : Bool :=
  let binaryExtensions := [".png", ".jpg", ".jpeg", ".gif", ".ico", ".svg",
                           ".pdf", ".zip", ".tar", ".gz", ".exe", ".dll",
                           ".so", ".dylib", ".class", ".jar", ".war"]
  !(binaryExtensions.contains (lowerStr (extname filename)))

/-- `content.split('\n').length`: one more than the number of newlines. -/
def lineCount (content : String) : Nat :=
  content.toList.count '\n' + 1

/-- JavaScript `content.split('\n')`: every newline separates two (possibly
empty) pieces. -/
def splitLinesAux : List Char → List Char → List String
  | [], acc => [acc.reverse.asString]
  | c :: rest, acc =>
    if c = '\n' then acc.reverse.asString :: splitLinesAux rest []
    else splitLinesAux rest (c :: acc)

def splitLines (content : String) : List String :=
  splitLinesAux content.toList []

/-- `path.join(relativePath, name)` / `path.relative(repoPath, fullPath)`
for the relative paths built during the walks. -/
def joinRel (base name : String) : String :=
  if base = "" then name else base ++ "/" ++ name

/-- One visited entry of a depth-first walk, in visit order: each directory
is visited, then its subtree, then its later siblings — the exact order of
the `readdirSync`/`forEach` walks in `repoAnalyzer.js`. -/
structure WalkItem where
  name : String
  relPath : String
  depth : Nat
  isDir : Bool
  content : Option String
  size : Nat
deriving DecidableEq

mutual

/-- The visit of a single entry: a directory is visited, then its subtree. -/
def walkEntry (base : String) (depth : Nat) : FsEntry → List WalkItem
  | .file name c =>
      [⟨name, joinRel base name, depth, false, c, FsEntry.statSize c⟩]
  | .dir name sub =>
      ⟨name, joinRel base name, depth, true, none, 0⟩ ::
        walkEntries (joinRel base name) (depth + 1) sub

/-- The depth-first visit sequence of a tree (root entries have depth 0). -/
def walkEntries (base : String) (depth : Nat) : FsForest → List WalkItem
  | .nil => []
  | .cons e rest => walkEntry base depth e ++ walkEntries base depth rest

end

/-- Bump a key of a JavaScript-object histogram
(`structure.byType[ext] = (structure.byType[ext] || 0) + 1`). -/
def bumpCount (hist : List (String × Nat)) (key : String) : List (String × Nat) :=
  match hist with
  | [] => [(key, 1)]
  | (k, n) :: rest =>
      if k = key then (k, n + 1) :: rest else (k, n) :: bumpCount rest key

/-- Output shape of `repoAnalyzer.analyzeStructure`. -/
structure StructureInfo where
  directories : Nat
  files : Nat
  byType : List (String × Nat)
  maxDepth : Nat
deriving DecidableEq

/-- `repoAnalyzer.analyzeStructure`: counts directories and files, keeps a
per-extension histogram and the maximum depth reached by `walk`
(`walk(dir, depth)` first sets `maxDepth = max(maxDepth, depth)`; the root
call uses depth 0 and each directory entry at depth d triggers a call at
depth d+1). -/
def analyzeStructure (tree : FsForest) : StructureInfo :=
  (walkEntries "" 0 tree).foldl
    (fun acc it =>
      if it.isDir then
        { acc with directories := acc.directories + 1,
                   maxDepth := max acc.maxDepth (it.depth + 1) }
      else
        { acc with files := acc.files + 1,
                   byType := bumpCount acc.byType (lowerStr (extname it.name)) })
    ⟨0, 0, [], 0⟩

/-- The closed extension→language table of `repoAnalyzer.detectLanguages`. -/
def extensionLanguages : List (String × String) :=
  [(".js", "JavaScript"), (".ts", "TypeScript"), (".py", "Python"),
   (".java", "Java"), (".go", "Go"), (".rs", "Rust"), (".rb", "Ruby"),
   (".php", "PHP"), (".cpp", "C++"), (".c", "C"), (".cs", "C#"),
   (".swift", "Swift"), (".kt", "Kotlin"), (".scala", "Scala"),
   (".html", "HTML"), (".css", "CSS"), (".json", "JSON"), (".yaml", "YAML"),
   (".yml", "YAML"), (".xml", "XML"), (".md", "Markdown")]

/-- Append to a `Set`-like accumulator: duplicates collapse, insertion order
is kept (`languages.add` on a JavaScript `Set`, read back by `Array.from`). -/
def setAdd (acc : List String) (s : String) : List String :=
  if acc.contains s then acc else acc ++ [s]

/-- `repoAnalyzer.detectLanguages`. -/
def detectLanguages (tree : FsForest) : List String :=
  (walkEntries "" 0 tree).foldl
    (fun acc it =>
      if it.isDir then acc
      else
        match extensionLanguages.lookup (lowerStr (extname it.name)) with
        | some lang => setAdd acc lang
        | none => acc)
    []

/-- The closed filename list of `repoAnalyzer.findConfigFiles`. -/
def configPatterns : List String :=
  ["package.json", "package-lock.json", "yarn.lock",
   "pom.xml", "build.gradle", "build.gradle.kts",
   "requirements.txt", "Pipfile", "pyproject.toml",
   "Cargo.toml", "go.mod", "composer.json",
   "docker-compose.yml", "docker-compose.yaml",
   ".dockerignore", ".gitignore", ".env.example",
   "Makefile", "Procfile", "webpack.config.js",
   "tsconfig.json", ".eslintrc", ".prettierrc"]

/-- One record pushed by `findConfigFiles`. -/
structure ConfigFile where
  name : String
  path : String
  size : Nat
deriving DecidableEq

/-- `repoAnalyzer.findConfigFiles`. -/
def findConfigFiles (tree : FsForest) : List ConfigFile :=
  (walkEntries "" 0 tree).foldl
    (fun acc it =>
      if !it.isDir && configPatterns.contains it.name then
        acc ++ [⟨it.name, it.relPath, it.size⟩]
      else acc)
    []

/-- One record pushed by `getFileList`. -/
structure FileEntry where
  name : String
  path : String
  isDirectory : Bool
  size : Nat
  extension : String
deriving DecidableEq

/-- `repoAnalyzer.getFileList`: every entry (directories included) in visit
order, with relative path, size (0 for directories) and lowercase extension. -/
def getFileList (tree : FsForest) : List FileEntry :=
  (walkEntries "" 0 tree).map
    (fun it => ⟨it.name, it.relPath, it.isDir,
                if it.isDir then 0 else it.size, lowerStr (extname it.name)⟩)

/-! ## Dependency extraction (`repoAnalyzer.analyzeDependencies`) -/

/-- Exceptions thrown inside the pipeline. -/
inductive JsErr where
  | jsonError (msg : String)      -- `JSON.parse` threw a SyntaxError
  | typeError (msg : String)      -- property access / method call on a bad value
  | ioError (msg : String)        -- `readFileSync` threw
  | enoent (path : String)        -- `readdirSync` on a missing directory
  | cloneError (msg : String)     -- both clone commands failed
deriving DecidableEq

/-- `error.message` as read by the controller's catch block. -/
def JsErr.message : JsErr → String
  | .jsonError m => m
  | .typeError m => m
  | .ioError m => m
  | .enoent p => "ENOENT: no such file or directory, scandir " ++ p
  | .cloneError m => m

/-- One dependency record pushed by `analyzeDependencies`. -/
structure Dep where
  name : String
  version : String
  type : String
  manager : String
deriving DecidableEq

/-- Remove the first occurrence of a character from a list. -/
def removeFirst (c : Char) : List Char → List Char
  | [] => []
  | x :: xs => if x = c then xs else x :: removeFirst c xs

/-- JavaScript `s.replace(pat, '')` with a one-character string pattern:
only the first occurrence is removed. -/
def jsReplaceOnce (s : String) (c : Char) : String :=
  (removeFirst c s.toList).asString

/-- `version.replace('^', '').replace('~', '')`. -/
def stripVersion (v : String) : String :=
  jsReplaceOnce (jsReplaceOnce v '^') '~'

def isNameChar (c : Char) : Bool := c.isAlphanum || c = '_' || c = '-'

def isVersionChar (c : Char) : Bool := c.isDigit || c = '.'

/-- The regex `^([a-zA-Z0-9_-]+)==([0-9.]+)` of the requirements.txt loop:
both character classes are disjoint from `=`, so the greedy match is the
maximal leading run of name characters, then `==`, then a nonempty run of
version characters; the rest of the line is unconstrained. -/
def pipLineMatch (line : String) : Option (String × String) :=
  if (line.toList.takeWhile isNameChar).isEmpty then none
  else
    match line.toList.dropWhile isNameChar with
    | '=' :: '=' :: rest =>
      if (rest.takeWhile isVersionChar).isEmpty then none
      else some ((line.toList.takeWhile isNameChar).asString,
                 (rest.takeWhile isVersionChar).asString)
    | _ => none

/-- Root-level lookup used for `path.join(repoPath, name)` +
`fs.existsSync` + `fs.readFileSync`. -/
def rootFile : FsForest → String → Option (Option String)
  | .nil, _ => none
  | .cons (.file n c) rest, fname =>
      if n = fname then some c else rootFile rest fname
  | .cons (.dir n _) rest, fname =>
      -- reading a directory throws, modelled like an unreadable file
      if n = fname then some none else rootFile rest fname

/-- The records contributed by the `packageJson.dependencies` loop: for each
entry, `version.replace('^','').replace('~','')` — a `TypeError` is thrown
when a dependency value is not a string. -/
def npmDeps (entries : List (String × Js)) : Except JsErr (List Dep) :=
  match entries with
  | [] => .ok []
  | (name, v) :: rest =>
    match v with
    | .str version =>
      match npmDeps rest with
      | .ok deps => .ok (⟨name, stripVersion version, "runtime", "npm"⟩ :: deps)
      | .error e => .error e
    | _ => .error (.typeError "version.replace is not a function")

/-- The records contributed by the requirements.txt loop: one record per
line matching the pinned-version regex, in line order. -/
def pipDeps : List String → List Dep
  | [] => []
  | line :: rest =>
    match pipLineMatch line with
    | some (name, ver) => ⟨name, ver, "runtime", "pip"⟩ :: pipDeps rest
    | none => pipDeps rest

/-- The package.json stage of `analyzeDependencies`: read and `JSON.parse`
the manifest when present, then run the `packageJson.dependencies` loop. -/
def npmStage (tree : FsForest) : Except JsErr (List Dep) :=
  match rootFile tree "package.json" with
  | none => .ok []
  | some none => .error (.ioError "EACCES: permission denied, open package.json")
  | some (some content) =>
    match jsonParse content with
    | none => .error (.jsonError "Unexpected token in JSON")
    | some packageJson =>
      match packageJson with
      | .null => .error (.typeError "Cannot read properties of null")
      | _ =>
        match packageJson.lookup "dependencies" with
        | some depsVal =>
          if jsTruthy depsVal then npmDeps (jsEntries depsVal) else .ok []
        | none => .ok []

/-- `repoAnalyzer.analyzeDependencies`: the package.json records followed by
the requirements.txt records.  Note there is no `try`/`catch` in the
source: a `JSON.parse` failure (or an unreadable manifest) propagates out
of the function. -/
def analyzeDependencies (tree : FsForest) : Except JsErr (List Dep) :=
  match npmStage tree with
  | .error e => .error e
  | .ok npm =>
    match rootFile tree "requirements.txt" with
    | none => .ok npm
    | some none => .error (.ioError "EACCES: permission denied, open requirements.txt")
    | some (some content) => .ok (npm ++ pipDeps (splitLines content))

/-! ## Metrics (`repoAnalyzer.calculateMetrics`) -/

structure LargestFile where
  name : String
  lines : Nat
deriving DecidableEq

structure Metrics where
  totalLines : Nat
  totalFiles : Nat
  avgLinesPerFile : Nat
  largestFile : LargestFile
deriving DecidableEq

/-- The text files visited by `calculateMetrics`, in visit order, with their
relative path and content (`none` = the read threw and the file is skipped). -/
def textFiles (tree : FsForest) : List (String × Option String) :=
  (walkEntries "" 0 tree).filterMap
    (fun it =>
      if !it.isDir && isTextFile it.name then some (it.relPath, it.content)
      else none)

/-- The readable text files with their line counts, in visit order. -/
def readableCounts (tree : FsForest) : List (String × Nat) :=
  (textFiles tree).filterMap (fun f => f.2.map (fun c => (f.1, lineCount c)))

/-- The largest-file update of the metrics loop: a strictly greater line
count replaces the record. -/
def largestStep (best : LargestFile) (f : String × Nat) : LargestFile :=
  if f.2 > best.lines then ⟨f.1, f.2⟩ else best

/-- The loop body of `calculateMetrics` for one text file: `totalFiles++`
happens before the read, so an unreadable file is still counted. -/
def metricsStep (acc : Metrics) (f : String × Option String) : Metrics :=
  match f.2 with
  | none => { acc with totalFiles := acc.totalFiles + 1 }
  | some content =>
    let lines := lineCount content
    { acc with
      totalFiles := acc.totalFiles + 1,
      totalLines := acc.totalLines + lines,
      largestFile := largestStep acc.largestFile (f.1, lines) }

/-- `Math.round(totalLines / totalFiles)` for nonnegative operands. -/
def mathRound (num den : Nat) : Nat := (2 * num + den) / (2 * den)

/-- `repoAnalyzer.calculateMetrics`. -/
def calculateMetrics (tree : FsForest) : Metrics :=
  let m := (textFiles tree).foldl metricsStep ⟨0, 0, 0, ⟨"", 0⟩⟩
  if m.totalFiles > 0 then
    { m with avgLinesPerFile := mathRound m.totalLines m.totalFiles }
  else m

/-! ## URL parsing (`repoAnalyzer.parseRepoUrl`) -/

/-- Match a literal character sequence, returning the remainder. -/
def dropLiteral : List Char → List Char → Option (List Char)
  | [], cs => some cs
  | _ :: _, [] => none
  | l :: ls, c :: cs => if c = l then dropLiteral ls cs else none

/-- The capture part `([^\/]+)\/([^\/]+)` of the platform patterns. -/
def captureTwo (cs : List Char) : Option (String × String) :=
  let a := cs.takeWhile (fun c => c != '/')
  if a.isEmpty then none
  else
    match cs.dropWhile (fun c => c != '/') with
    | '/' :: rest =>
      let b := rest.takeWhile (fun c => c != '/')
      if b.isEmpty then none else some (a.asString, b.asString)
    | _ => none

/-- Unanchored regex search: try the pattern at each position in turn. -/
def searchHostPattern (lit : List Char) : List Char → Option (String × String)
  | [] => none
  | c :: rest =>
    match (dropLiteral lit (c :: rest)).bind captureTwo with
    | some r => some r
    | none => searchHostPattern lit rest

/-- `match[2].replace(/\.git$/, '')`. -/
def stripGitSuffix (repo : String) : String :=
  if repo.endsWith ".git" then (repo.toList.take (repo.length - 4)).asString
  else repo

structure RepoInfo where
  platform : String
  owner : Option String
  repo : Option String
  url : String
deriving DecidableEq

/-- `repoAnalyzer.parseRepoUrl`: the three platform patterns are tried in
order; an unmatched URL degrades to platform `other`. -/
def parseRepoUrl (url : String) : RepoInfo :=
  let try1 (host : String) (platform : String) : Option RepoInfo :=
    (searchHostPattern (host ++ "/").toList url.toList).map
      (fun p => ⟨platform, some p.1, some (stripGitSuffix p.2), url⟩)
  match try1 "github.com" "github" with
  | some r => r
  | none =>
    match try1 "gitlab.com" "gitlab" with
    | some r => r
    | none =>
      match try1 "bitbucket.org" "bitbucket" with
      | some r => r
      | none => ⟨"other", none, none, url⟩

/-! ## Cloning (`repoAnalyzer.cloneRepository`) and the pipeline

`execPromise = util.promisify(exec)` runs a shell command; it is modelled by
an oracle from the exact command string to an outcome (the populated tree on
success).  `exec` is called without an options object, so no timeout is set
(Node's default `timeout: 0` disables the kill timer). -/

structure ExecCall where
  cmd : String
  timeout : Option Nat
deriving DecidableEq

/-- The interpolated template
``git clone --depth ${depth} --branch ${branch} ${url} ${repoPath}``. -/
def cloneCmdStr (depth : Nat) (branch url dest : String) : String :=
  "git clone --depth " ++ toString depth ++ " --branch " ++ branch ++ " " ++
    url ++ " " ++ dest

/-- The fallback template ``git clone --depth ${depth} ${url} ${repoPath}``. -/
def fallbackCmdStr (depth : Nat) (url dest : String) : String :=
  "git clone --depth " ++ toString depth ++ " " ++ url ++ " " ++ dest

/-- `repoAnalyzer.cloneRepository` (after `mkdirSync`): first command with
the branch; on any failure one retry without the branch, whose outcome is
final.  Returns the result together with the trace of `exec` invocations. -/
def cloneRepository (url branch : String) (depth : Nat) (dest : String)
    (exec : String → Except String (FsForest)) :
    Except String (FsForest) × List ExecCall :=
  let cloneCmd := cloneCmdStr depth branch url dest
  match exec cloneCmd with
  | .ok tree => (.ok tree, [⟨cloneCmd, none⟩])
  | .error _ =>
    let fallbackCmd := fallbackCmdStr depth url dest
    (exec fallbackCmd, [⟨cloneCmd, none⟩, ⟨fallbackCmd, none⟩])

/-- The value built by the `return` statement of `analyzeRepository`. -/
structure AnalysisValue where
  repository : RepoInfo
  branch : String
  structureInfo : StructureInfo
  languages : List String
  configFiles : List ConfigFile
  dependencies : List Dep
  metrics : Metrics
  files : List FileEntry
deriving DecidableEq

/-- Outcome of one `analyzeRepository` run together with whether the
workspace directory still exists on disk afterwards. -/
structure RunOutput where
  result : Except JsErr AnalysisValue
  dirExists : Bool

/-- `fs.readdirSync(repoPath)` against the live disk state: the workspace
either still holds the cloned tree or has been removed. -/
def readdirRoot (disk : Option (FsForest)) : Except JsErr (FsForest) :=
  match disk with
  | none => .error (.enoent "repoPath")
  | some tree => .ok tree

/-- `repoAnalyzer.analyzeRepository`: clone, analyze the tree, clean up the
workspace, then build the result object — whose `files` field evaluates
`getFileList(repoPath)` against the already-removed directory.  Any thrown
error is logged and re-thrown by the surrounding `catch`, with the workspace
left in whatever state it had. -/
def analyzeRepository (url branch : String) (depth : Nat)
    (includeDependencies : Bool) (dest : String)
    (exec : String → Except String (FsForest)) : RunOutput :=
  let repoInfo := parseRepoUrl url
  -- fs.mkdirSync(repoPath, { recursive: true }): the workspace now exists
  match cloneRepository url branch depth dest exec with
  | (.error e, _) => ⟨.error (.cloneError e), true⟩
  | (.ok tree, _) =>
    let structureInfo := analyzeStructure tree
    let languages := detectLanguages tree
    let configFiles := findConfigFiles tree
    match (if includeDependencies then analyzeDependencies tree else .ok []) with
    | .error e => ⟨.error e, true⟩
    | .ok dependencies =>
      let metrics := calculateMetrics tree
      -- this.cleanupTempDir(repoPath): the workspace directory is removed
      let disk : Option (FsForest) := none
      -- files: this.getFileList(repoPath) starts with readdirSync(repoPath)
      match readdirRoot disk with
      | .error e => ⟨.error e, false⟩
      | .ok liveTree =>
        ⟨.ok ⟨repoInfo, branch, structureInfo, languages, configFiles,
              dependencies, metrics, getFileList liveTree⟩, false⟩

/-! ## Enrichment (`openaiService.getRepositoryInsights`)

The external inference call is modelled by its outcome: `.error` when the
`chat.completions.create` promise rejects (timeout, service unavailable,
network error), `.ok content` when it resolves with a message content. -/

/-- `openaiService.getMockInsights`: the static fallback object. -/
def getMockInsights : Js :=
  Js.obj
    [("architecture", Js.str "Monolithic application structure"),
     ("quality", Js.str "Good code organization, needs more tests"),
     ("performance", Js.arr
        [Js.str "Add caching layer",
         Js.str "Optimize database queries",
         Js.str "Implement CDN for static assets"]),
     ("security", Js.arr
        [Js.str "Update dependencies",
         Js.str "Add input validation",
         Js.str "Implement rate limiting"]),
     ("devops", Js.arr
        [Js.str "Add Docker support",
         Js.str "Create CI/CD pipeline",
         Js.str "Implement monitoring"])]

/-- `openaiService.parseAIResponse`: `JSON.parse` the content, and wrap
unparsable content as `{ raw: content }`. -/
def parseAIResponse (content : String) : Js :=
  match jsonParse content with
  | some j => j
  | none => Js.obj [("raw", Js.str content)]

/-- `openaiService.getRepositoryInsights`: parse the response of a resolved
call; fall back to the mock object when the call rejects. -/
def getRepositoryInsights (call : Except String String) : Js :=
  match call with
  | .ok content => parseAIResponse content
  | .error _ => getMockInsights

/-! ## The persisted Analysis record (`models/Analysis.js`) and the
controller's writes (`analyzeController.js`) -/

/-- The `status` enum of `analysisSchema`. -/
inductive Status where
  | pending
  | analyzing
  | completed
  | failed
deriving DecidableEq

/-- The schema-less `analysisData` blob.  The empty value models the schema
default `\x7b\x7d`; the completed path stores the full analysis (analyzer
result and enrichment output), and `performCodeReview` later grafts a
`codeReview` member onto whatever blob is present. -/
structure StoredData where
  result : Option AnalysisValue
  aiInsights : Option Js
  codeReview : Option Js

def StoredData.empty : StoredData := ⟨none, none, none⟩

/-- Whether the blob is still the schema default (nothing populated). -/
def StoredData.isEmptyData (d : StoredData) : Bool :=
  d.result.isNone && d.aiInsights.isNone && d.codeReview.isNone

/-- The `metrics` subdocument as written by the controller
(`AnalyzeController.calculateMetrics`); the nested complexity indicators are
not modelled (no claim reads them). -/
structure StoredMetrics where
  analysisDuration : Nat
  totalLines : Nat
  totalFiles : Nat
  languageDistribution : List String
  dependencyCount : Nat
deriving DecidableEq

/-- `Math.floor(Math.random() * 300) + 60` with the random draw passed in,
plus the `|| 0` projections of the analysis payload. -/
def controllerCalcMetrics (rand : Nat) (d : StoredData) : StoredMetrics :=
  match d.result with
  | some fa => ⟨rand % 300 + 60, fa.metrics.totalLines, fa.files.length,
                fa.languages, fa.dependencies.length⟩
  | none => ⟨rand % 300 + 60, 0, 0, [], 0⟩

/-- One persisted Analysis record. -/
structure AnalysisRec where
  id : Nat
  userId : Nat
  repositoryUrl : String
  branch : String
  status : Status
  analysisData : StoredData
  metrics : Option StoredMetrics
  error : Option String

/-- The controller's success path: `new Analysis({..., status: 'completed',
metrics: this.calculateMetrics(fullAnalysis)})` followed by `save()`.
The record is born in its terminal state. -/
def createCompleted (id userId : Nat) (url branch : String)
    (res : AnalysisValue) (insights : Js) (rand : Nat) : AnalysisRec :=
  let analysisData : StoredData := ⟨some res, some insights, none⟩
  ⟨id, userId, url, branch, .completed, analysisData,
   some (controllerCalcMetrics rand analysisData), none⟩

/-- The controller's catch block: `new Analysis({userId, repositoryUrl,
status: 'failed', error})` — `branch` takes the schema default, and
`analysisData`/`metrics` stay unpopulated. -/
def createFailed (id userId : Nat) (url errMsg : String) : AnalysisRec :=
  ⟨id, userId, url, "main", .failed, .empty, none, some errMsg⟩

/-- `analysisSchema.methods.updateStatus`: writes the given status
unconditionally; populates `analysisData` and `metrics` when it is
`completed`, and `error` when it is `failed`. -/
def updateStatus (rec : AnalysisRec) (status : Status) (data : StoredData)
    (dataErr : Option String) (rand : Nat) : AnalysisRec :=
  let rec1 := { rec with status := status }
  match status with
  | .completed =>
      { rec1 with analysisData := data,
                  metrics := some (controllerCalcMetrics rand data) }
  | .failed => { rec1 with error := some (dataErr.getD "Analysis failed") }
  | _ => rec1

/-- `AnalyzeController.performCodeReview` on the record it found: it sets
`analysisData.codeReview` and saves, with no check of `status`. -/
def performCodeReviewOn (rec : AnalysisRec) (review : Js) : AnalysisRec :=
  { rec with analysisData := { rec.analysisData with codeReview := some review } }

/-- Response of the get-analysis endpoint: the controller answers 404
`Analysis not found` when `findOne` returns nothing, and otherwise builds
its response data from the found record. -/
inductive GetResponse where
  | notFound
  | found (rec : AnalysisRec)

/-- `AnalyzeController.getAnalysisById`:
`Analysis.findOne({ _id: analysisId, userId })`. -/
def getAnalysisById (store : List AnalysisRec) (userId analysisId : Nat) :
    GetResponse :=
  match store.find? (fun r => r.id = analysisId && r.userId = userId) with
  | none => .notFound
  | some r => .found r

/-- The controller's try block after `RepositoryService.analyzeRepository`
resolves or rejects: enrichment plus `save()` on success, the failed record
on a rejection. -/
def controllerOnResult (id userId : Nat) (url branch : String)
    (pipeline : Except JsErr AnalysisValue) (aiCall : Except String String)
    (rand : Nat) : AnalysisRec :=
  match pipeline with
  | .ok res => createCompleted id userId url branch res
      (getRepositoryInsights aiCall) rand
  | .error e => createFailed id userId url e.message

/-- The whole `AnalyzeController.analyzeRepository` request flow. -/
def controllerRun (id userId : Nat) (url branch : String) (depth : Nat)
    (includeDependencies : Bool) (dest : String)
    (exec : String → Except String (FsForest))
    (aiCall : Except String String) (rand : Nat) : AnalysisRec :=
  controllerOnResult id userId url branch
    (analyzeRepository url branch depth includeDependencies dest exec).result
    aiCall rand

/-! ## Concrete scenarios used below -/

/-- An exec oracle whose clone commands all fail. -/
def execAlwaysFails : String → Except String (FsForest) :=
  fun _ => .error "fatal: repository not found"

/-- A small healthy repository tree. -/
def readmeTree : FsForest :=
  .cons (.file "README.md" (some "hello\nworld")) .nil

/-- An exec oracle whose clone succeeds with `readmeTree`. -/
def execOkReadme : String → Except String (FsForest) :=
  fun _ => .ok readmeTree

/-- A tree whose `package.json` is not valid JSON. -/
def malformedPkgTree : FsForest :=
  .cons (.file "package.json" (some "\x7b \"name\": ")) .nil

/-- An exec oracle whose clone succeeds with `malformedPkgTree`. -/
def execOkMalformedPkg : String → Except String (FsForest) :=
  fun _ => .ok malformedPkgTree

/-- A store holding one completed analysis owned by user 7. -/
def user7Store : List AnalysisRec :=
  [⟨1, 7, "https://github.com/a/b", "main", .completed, .empty, none, none⟩]

/-- A failed record as the controller's catch block persists it. -/
def failedRec : AnalysisRec :=
  createFailed 1 7 ("https://github.com/a/b") ("fatal: repository not found")

/-- A well-formed npm version entry: a version string carrying at most one
`^` and at most one `~` range marker. -/
def wellFormedVersionStr (s : String) : Bool :=
  s.toList.count '^' ≤ 1 && s.toList.count '~' ≤ 1

/-- A well-formed entry of a JSON dependency map: a string value that is a
well-formed npm version. -/
def isWellFormedEntry : String × Js → Bool
  | (_, .str s) => wellFormedVersionStr s
  | _ => false

/-- The maximum line count over a list of (path, line count) pairs. -/
def maxLines (l : List (String × Nat)) : Nat :=
  l.foldr (fun f m => max f.2 m) 0

/-- A tree holding only an npm manifest with two well-formed entries. -/
def npmOnlyTree : FsForest :=
  .cons (.file "package.json"
     (some "\x7b\"dependencies\": \x7b\"express\": \"^4.18.2\", \"lodash\": \"~4.17.21\"\x7d\x7d")) .nil

/-- The dependency section of `npmOnlyTree` as parsed values. -/
def expressEntries : List (String × Js) :=
  [("express", Js.str "^4.18.2"), ("lodash", Js.str "~4.17.21")]

/-- A tree holding only a pinned-version text manifest with two lines. -/
def pipOnlyTree : FsForest :=
  .cons (.file "requirements.txt" (some "flask==2.0.1\nnumpy==1.21.0")) .nil

/-- Two readable text files with equal line counts, to exercise the
largest-file tie-break. -/
def tieTree : FsForest :=
  .cons (.file "a.txt" (some "one\ntwo"))
    (.cons (.file "b.txt" (some "uno\ndos")) .nil)

/-! ## C10: command interpolation -/

/-- C10: the clone command is the direct interpolation of the caller's url
and branch into the template, with no quoting or escaping: the executed
string contains both verbatim (shell metacharacters included), and it is
exactly the first command handed to `exec` by `cloneRepository`. -/
theorem cloneCmd_verbatim_interpolation
    (url branch dest : String) (depth : Nat)
    (exec : String → Except String (FsForest)) :
    cloneCmdStr depth branch url dest =
      "git clone --depth " ++ toString depth ++ " --branch " ++ branch ++
        " " ++ url ++ " " ++ dest
    ∧ (∃ pre post, cloneCmdStr depth branch url dest = pre ++ url ++ post)
    ∧ (∃ pre post, cloneCmdStr depth branch url dest = pre ++ branch ++ post)
    ∧ (cloneRepository url branch depth dest exec).2.head? =
        some ⟨cloneCmdStr depth branch url dest, none⟩ := by
  refine ⟨rfl, ⟨?_, ?_⟩, ⟨?_, ?_⟩, ?_⟩
  · exact "git clone --depth " ++ toString depth ++ " --branch " ++ branch ++ " "
  · exact ⟨" " ++ dest, by simp [cloneCmdStr, String.append_assoc]⟩
  · exact "git clone --depth " ++ toString depth ++ " --branch "
  · exact ⟨" " ++ url ++ " " ++ dest, by simp [cloneCmdStr, String.append_assoc]⟩
  · unfold cloneRepository
    cases h : exec (cloneCmdStr depth branch url dest) <;> simp [h]

/-! ## C6: clone retry behavior -/

/-- C6 counterexample: the clone commands are executed with no options
object, hence with no enforced timeout — refuting, at a concrete input, the
claim that the clone operation runs under an enforced timeout. -/
theorem cloneRepository_no_timeout
    : ((cloneRepository ("https://github.com/u/r") ("main") 1 ("tmp/repos/a")
          execAlwaysFails).2.map ExecCall.timeout) = [none, none] := rfl

/-- C6 amended: the clone runs with no enforced timeout; on any failure of
the first command there is exactly one retry without the branch qualifier,
whose outcome (including its error) is final; there are never more than two
invocations. -/
theorem cloneRepository_retry_spec
    (url branch dest : String) (depth : Nat)
    (exec : String → Except String (FsForest)) :
    (cloneRepository url branch depth dest exec).2.length ≤ 2
    ∧ (∀ c ∈ (cloneRepository url branch depth dest exec).2, c.timeout = none)
    ∧ (cloneRepository url branch depth dest exec).2.head? =
        some ⟨cloneCmdStr depth branch url dest, none⟩
    ∧ ((cloneRepository url branch depth dest exec).2.length = 2 →
        (cloneRepository url branch depth dest exec).2.getLast? =
          some ⟨fallbackCmdStr depth url dest, none⟩)
    ∧ (cloneRepository url branch depth dest exec).1 =
        (match exec (cloneCmdStr depth branch url dest) with
         | .ok tree => .ok tree
         | .error _ => exec (fallbackCmdStr depth url dest))
    ∧ ((cloneRepository url branch depth dest exec).2.length = 2 ↔
        ∃ e, exec (cloneCmdStr depth branch url dest) = .error e) := by
  unfold cloneRepository
  cases h : exec (cloneCmdStr depth branch url dest) <;>
    simp [h]

/-- Concrete instance of `cloneRepository_retry_spec`: with an oracle that
always fails, the second and final invocation is the branchless fallback. -/
theorem cloneRepository_retry_spec_witness
    : ((cloneRepository ("https://github.com/u/r") ("main") 1 ("tmp/repos/a")
          execAlwaysFails).2.getLast? =
        some ⟨fallbackCmdStr 1 ("https://github.com/u/r") ("tmp/repos/a"), none⟩) :=
  (cloneRepository_retry_spec ("https://github.com/u/r") ("main")
      ("tmp/repos/a") 1 execAlwaysFails).2.2.2.1 (by decide)

/-! ## C1: workspace cleanup -/

/-- C1 counterexample: a run whose clone fails (both attempts) reaches its
terminal failed state with the workspace directory still on disk — the
`catch` block re-throws without invoking `cleanupTempDir`. -/
theorem analyzeRepository_clone_failure_leaves_dir
    : (analyzeRepository ("https://github.com/u/r") ("main") 3 true
        ("tmp/repos/a") execAlwaysFails).dirExists = true
    ∧ (analyzeRepository ("https://github.com/u/r") ("main") 3 true
        ("tmp/repos/a") execAlwaysFails).result =
        .error (.cloneError "fatal: repository not found") := ⟨rfl, rfl⟩

/-- C1 amended: `cleanupTempDir` is invoked (exactly once, after the metrics
stage) only on runs whose clone and dependency stages succeed; on every
exception raised before that point — clone failure after the directory was
created, or a dependency-extraction error — the workspace directory
persists after the terminal state. -/
theorem analyzeRepository_cleanup_spec
    (url branch dest : String) (depth : Nat) (incl : Bool)
    (exec : String → Except String (FsForest)) :
    (analyzeRepository url branch depth incl dest exec).dirExists = false ↔
      ∃ tree, (cloneRepository url branch depth dest exec).1 = .ok tree
        ∧ (incl = true → ∃ deps, analyzeDependencies tree = .ok deps) := by
  unfold analyzeRepository
  rcases hclone : cloneRepository url branch depth dest exec with ⟨res, calls⟩
  cases res with
  | error e => simp
  | ok tree =>
    cases incl with
    | false => simp [readdirRoot]
    | true =>
      cases hdeps : analyzeDependencies tree with
      | error e => simp [hdeps]
      | ok deps => simp [hdeps, readdirRoot]

/-- Concrete instance of `analyzeRepository_cleanup_spec`: a successful run
over `readmeTree` does remove the workspace. -/
theorem analyzeRepository_cleanup_spec_witness
    : (analyzeRepository ("https://github.com/u/r") ("main") 3 true
        ("tmp/repos/a") execOkReadme).dirExists = false :=
  (analyzeRepository_cleanup_spec ("https://github.com/u/r") ("main")
      ("tmp/repos/a") 3 true execOkReadme).mpr
    ⟨readmeTree, rfl, fun _ => ⟨[], rfl⟩⟩

/-! ## C2: the success path -/

/-- C2: the success path is broken in the code: `cleanupTempDir(repoPath)`
runs before the result object evaluates `getFileList(repoPath)`, so even a
perfectly healthy run throws ENOENT while listing the removed workspace,
and the controller persists a `failed` record — no run ever returns the
result object or reaches `completed`. -/
theorem analyzeRepository_success_path_throws
    : (analyzeRepository ("https://github.com/user/repo") ("main") 3 true
        ("tmp/repos/run1") execOkReadme).result = .error (.enoent "repoPath")
    ∧ (controllerRun 1 7 ("https://github.com/user/repo") ("main") 3 true
        ("tmp/repos/run1") execOkReadme (.ok "\x7b\x7d") 0).status = .failed
    := ⟨rfl, rfl⟩

/-! ## C3: enrichment fallback -/

/-- C3 counterexample: when the inference call resolves but its content is
not JSON (a malformed response), `getRepositoryInsights` does not fall back
to the deterministic mock object: it returns `\x7b raw: content \x7d`,
whose key set is not the five-key insights schema. -/
theorem getRepositoryInsights_malformed_response
    : getRepositoryInsights (.ok ("The analysis looks good overall.")) =
        Js.obj [("raw", Js.str ("The analysis looks good overall."))]
    ∧ (getRepositoryInsights (.ok ("The analysis looks good overall."))).topKeys
        = ["raw"]
    ∧ (["raw"] ≠
        ["architecture", "quality", "performance", "security", "devops"]) :=
  ⟨rfl, rfl, by decide⟩

/-- C3 amended: whenever the inference call rejects (timeout, service
unavailable, network error), `getRepositoryInsights` returns — without
raising — the deterministic mock object with exactly the keys
architecture, quality, performance, security, devops, and a run whose
repository-analysis stage succeeded is still persisted as `completed`,
with the mock stored as its insights. -/
theorem getRepositoryInsights_rejection_fallback
    (e : String) (id userId rand : Nat) (url branch : String)
    (res : AnalysisValue) :
    getRepositoryInsights (.error e) = getMockInsights
    ∧ getMockInsights.topKeys =
        ["architecture", "quality", "performance", "security", "devops"]
    ∧ (controllerOnResult id userId url branch (.ok res) (.error e) rand).status
        = .completed
    ∧ (controllerOnResult id userId url branch (.ok res) (.error e)
        rand).analysisData.aiInsights = some getMockInsights :=
  ⟨rfl, rfl, rfl, rfl⟩

/-! ## C9: ownership on reads -/

/-- C9: a read returns a record only when its stored owner equals the
caller, and a request for a record that exists but is owned by someone else
produces literally the same not-found response as a request for an id that
does not exist at all. -/
theorem getAnalysisById_ownership
    (store : List AnalysisRec) (userId analysisId : Nat) :
    (∀ r, getAnalysisById store userId analysisId = .found r →
        r.id = analysisId ∧ r.userId = userId)
    ∧ ((∀ r ∈ store, ¬(r.id = analysisId ∧ r.userId = userId)) →
        getAnalysisById store userId analysisId = .notFound) := by
  constructor
  · intro r hr
    unfold getAnalysisById at hr
    cases hfind : store.find? (fun r => r.id = analysisId && r.userId = userId) with
    | none => rw [hfind] at hr; exact absurd hr (by simp)
    | some a =>
      rw [hfind] at hr
      have hp := List.find?_some hfind
      simp only [Bool.and_eq_true, decide_eq_true_eq] at hp
      cases hr
      exact hp
  · intro hall
    unfold getAnalysisById
    have : store.find? (fun r => r.id = analysisId && r.userId = userId) = none := by
      rw [List.find?_eq_none]
      intro x hx
      simpa using hall x hx
    rw [this]

/-- Concrete instance of `getAnalysisById_ownership`: user 8 asking for
user 7's record receives the not-found response. -/
theorem getAnalysisById_ownership_witness
    : getAnalysisById user7Store 8 1 = .notFound :=
  (getAnalysisById_ownership user7Store 8 1).2 (by decide)

/-! ## C5: status discipline of the persisted record -/

/-- C5 counterexample: `performCodeReview` populates `analysisData` with no
status check, so a failed record ends up with a populated `analysisData`
while its status is still `failed` — refuting that `metrics` and
`analysisData` are populated only when status is `completed`. -/
theorem performCodeReview_populates_failed_record
    : failedRec.status = .failed
    ∧ failedRec.analysisData.isEmptyData = true
    ∧ (performCodeReviewOn failedRec (Js.str ("looks fine"))).status = .failed
    ∧ (performCodeReviewOn failedRec (Js.str ("looks fine"))).analysisData.isEmptyData
        = false := ⟨rfl, rfl, rfl, rfl⟩

/-- C5 amended: statuses are drawn from the four-value enum; the
controller's writes create records directly in a terminal state (completed
with populated `analysisData`/`metrics`, failed with empty `analysisData`,
no `metrics` and an error message), and `updateStatus` populates
`analysisData` and `metrics` exactly when the written status is `completed`
and `error` exactly when it is `failed` — but `updateStatus` writes
whatever status it is given, without guarding against backward or
post-terminal transitions, and `performCodeReview` populates
`analysisData` regardless of the current status. -/
theorem analysis_record_write_spec
    (rec : AnalysisRec) (s : Status) (data : StoredData)
    (dataErr : Option String) (rand : Nat) (id userId : Nat)
    (url branch errMsg : String) (res : AnalysisValue) (insights : Js)
    (review : Js) :
    (updateStatus rec s data dataErr rand).status = s
    ∧ ((updateStatus rec s data dataErr rand).analysisData =
        if s = .completed then data else rec.analysisData)
    ∧ ((updateStatus rec s data dataErr rand).metrics =
        if s = .completed then some (controllerCalcMetrics rand data)
        else rec.metrics)
    ∧ ((updateStatus rec s data dataErr rand).error =
        if s = .failed then some (dataErr.getD ("Analysis failed"))
        else rec.error)
    ∧ (createCompleted id userId url branch res insights rand).status = .completed
    ∧ (createCompleted id userId url branch res insights rand).analysisData.isEmptyData
        = false
    ∧ (createCompleted id userId url branch res insights rand).metrics.isSome = true
    ∧ (createFailed id userId url errMsg).status = .failed
    ∧ (createFailed id userId url errMsg).analysisData.isEmptyData = true
    ∧ (createFailed id userId url errMsg).metrics = none
    ∧ (createFailed id userId url errMsg).error = some errMsg
    ∧ (performCodeReviewOn rec review).status = rec.status := by
  cases s <;>
    simp [updateStatus, createCompleted, createFailed, performCodeReviewOn,
      StoredData.isEmptyData, StoredData.empty]

/-! ## C4: a malformed manifest aborts the run -/

/-- C4 counterexample: a tree whose `package.json` is malformed makes
`analyzeDependencies` throw — nothing catches the `JSON.parse` error, the
manifest does not degrade to zero records, and the run is persisted as
`failed` rather than reaching `completed`. -/
theorem analyzeDependencies_malformed_manifest_aborts
    : analyzeDependencies malformedPkgTree =
        .error (.jsonError ("Unexpected token in JSON"))
    ∧ (analyzeRepository ("https://github.com/u/r") ("main") 3 true
        ("tmp/repos/a") execOkMalformedPkg).result =
        .error (.jsonError ("Unexpected token in JSON"))
    ∧ (controllerRun 1 7 ("https://github.com/u/r") ("main") 3 true
        ("tmp/repos/a") execOkMalformedPkg (.ok ("x")) 0).status = .failed
    := ⟨rfl, rfl, rfl⟩

/-- C4 amended: when `package.json` exists and its content does not parse,
the `JSON.parse` exception propagates out of `analyzeDependencies` (there is
no `try`/`catch` around it) and aborts any analysis run that cloned such a
tree with dependency extraction enabled. -/
theorem analyzeDependencies_parse_failure_propagates
    (tree : FsForest) (content : String)
    (hfile : rootFile tree "package.json" = some (some content))
    (hparse : jsonParse content = none) :
    analyzeDependencies tree = .error (.jsonError ("Unexpected token in JSON"))
    ∧ ∀ (url branch dest : String) (depth : Nat)
        (exec : String → Except String (FsForest)),
        (cloneRepository url branch depth dest exec).1 = .ok tree →
        (analyzeRepository url branch depth true dest exec).result =
          .error (.jsonError ("Unexpected token in JSON")) := by
  have hdeps : analyzeDependencies tree =
      .error (.jsonError ("Unexpected token in JSON")) := by
    simp [analyzeDependencies, npmStage, hfile, hparse]
  refine ⟨hdeps, ?_⟩
  intro url branch dest depth exec hclone
  unfold analyzeRepository
  rcases hc : cloneRepository url branch depth dest exec with ⟨cres, calls⟩
  rw [hc] at hclone
  simp only at hclone
  cases cres with
  | error e => exact absurd hclone (by simp)
  | ok tree2 =>
    have : tree2 = tree := by simpa using hclone
    subst this
    simp [hdeps]

/-- Concrete instance of `analyzeDependencies_parse_failure_propagates` at
the malformed tree. -/
theorem analyzeDependencies_parse_failure_witness
    : analyzeDependencies malformedPkgTree =
        .error (.jsonError ("Unexpected token in JSON")) :=
  (analyzeDependencies_parse_failure_propagates malformedPkgTree
      ("\x7b \"name\": ") rfl rfl).1

/-! ## C7: manifest round-trip -/

lemma count_removeFirst_self (c : Char) (l : List Char) :
    (removeFirst c l).count c = l.count c - 1 := by
  induction l with
  | nil => simp [removeFirst]
  | cons x xs ih =>
    by_cases h : x = c
    · subst h; simp [removeFirst]
    · simp [removeFirst, h, ih, List.count_cons]

lemma count_removeFirst_other (c d : Char) (l : List Char) (h : d ≠ c) :
    (removeFirst c l).count d = l.count d := by
  induction l with
  | nil => simp [removeFirst]
  | cons x xs ih =>
    by_cases hx : x = c
    · subst hx
      simp [removeFirst, List.count_cons, Ne.symm h]
    · simp [removeFirst, hx, ih, List.count_cons]

lemma toList_jsReplaceOnce (s : String) (c : Char) :
    (jsReplaceOnce s c).toList = removeFirst c s.toList := by
  unfold jsReplaceOnce
  exact List.toList_asString _

lemma stripVersion_no_markers (s : String) (h : wellFormedVersionStr s = true) :
    (stripVersion s).toList.count '^' = 0 ∧
    (stripVersion s).toList.count '~' = 0 := by
  simp only [wellFormedVersionStr, Bool.and_eq_true, decide_eq_true_eq] at h
  obtain ⟨h1, h2⟩ := h
  have hcaret : (stripVersion s).toList.count '^' = s.toList.count '^' - 1 := by
    rw [stripVersion, toList_jsReplaceOnce,
        count_removeFirst_other '~' '^' _ (by decide),
        toList_jsReplaceOnce, count_removeFirst_self]
  have htilde : (stripVersion s).toList.count '~' = s.toList.count '~' - 1 := by
    rw [stripVersion, toList_jsReplaceOnce, count_removeFirst_self,
        toList_jsReplaceOnce, count_removeFirst_other '^' '~' _ (by decide)]
  omega

lemma npmDeps_spec (entries : List (String × Js))
    (h : entries.all isWellFormedEntry = true) :
    ∃ deps, npmDeps entries = .ok deps
      ∧ deps.length = entries.length
      ∧ ∀ d ∈ deps, d.version.toList.count '^' = 0 ∧
          d.version.toList.count '~' = 0 := by
  induction entries with
  | nil => exact ⟨[], rfl, rfl, by simp⟩
  | cons p rest ih =>
    rw [List.all_cons, Bool.and_eq_true] at h
    obtain ⟨hp, hrest⟩ := h
    obtain ⟨deps, hdeps, hlen, hmk⟩ := ih hrest
    rcases p with ⟨name, v⟩
    cases v with
    | str s =>
      refine ⟨⟨name, stripVersion s, "runtime", "npm"⟩ :: deps, ?_, by simp [hlen], ?_⟩
      · simp [npmDeps, hdeps]
      · intro d hd
        rcases List.mem_cons.mp hd with hd | hd
        · subst hd
          exact stripVersion_no_markers s hp
        · exact hmk d hd
    | null => exact absurd hp (by simp [isWellFormedEntry])
    | bool b => exact absurd hp (by simp [isWellFormedEntry])
    | num lex => exact absurd hp (by simp [isWellFormedEntry])
    | arr elems => exact absurd hp (by simp [isWellFormedEntry])
    | obj fields => exact absurd hp (by simp [isWellFormedEntry])

lemma pipLineMatch_version_chars (line n v : String)
    (h : pipLineMatch line = some (n, v)) : ∀ c ∈ v.toList, isVersionChar c := by
  unfold pipLineMatch at h
  split_ifs at h
  split at h
  · split_ifs at h
    intro c hc
    rw [Option.some.injEq, Prod.mk.injEq] at h
    obtain ⟨-, hv⟩ := h
    subst hv
    rw [List.toList_asString] at hc
    exact List.mem_takeWhile_imp hc
  · exact absurd h (by simp)

lemma pipDeps_spec (lines : List String)
    (h : lines.all (fun l => (pipLineMatch l).isSome) = true) :
    (pipDeps lines).length = lines.length
    ∧ ∀ d ∈ pipDeps lines, d.version.toList.count '^' = 0 ∧
        d.version.toList.count '~' = 0 := by
  induction lines with
  | nil => simp [pipDeps]
  | cons line rest ih =>
    rw [List.all_cons, Bool.and_eq_true] at h
    obtain ⟨hline, hrest⟩ := h
    obtain ⟨hlen, hmk⟩ := ih hrest
    rw [Option.isSome_iff_exists] at hline
    obtain ⟨⟨n, v⟩, hm⟩ := hline
    have hvc := pipLineMatch_version_chars line n v hm
    have hcount : v.toList.count '^' = 0 ∧ v.toList.count '~' = 0 := by
      constructor <;>
      · rw [List.count_eq_zero]
        intro hmem
        have := hvc _ hmem
        simp [isVersionChar] at this
    constructor
    · simp [pipDeps, hm, hlen]
    · intro d hd
      rw [pipDeps, hm] at hd
      rcases List.mem_cons.mp hd with hd | hd
      · subst hd; exact hcount
      · exact hmk d hd

/-- C7: a dependency manifest with N well-formed entries yields exactly N
records, each with the `^`/`~` range markers stripped from its version: N
string-valued entries of the JSON dependency map yield N npm records, and N
lines of the form `name==version` yield N pip records, whose versions
contain no marker characters. -/
theorem dependency_manifest_roundtrip :
    (∀ (tree : FsForest) (content : String) (packageJson : Js)
       (entries : List (String × Js)),
       rootFile tree "package.json" = some (some content) →
       rootFile tree "requirements.txt" = none →
       jsonParse content = some packageJson →
       packageJson.lookup "dependencies" = some (Js.obj entries) →
       entries.all isWellFormedEntry = true →
       ∃ deps, analyzeDependencies tree = .ok deps
         ∧ deps.length = entries.length
         ∧ ∀ d ∈ deps, d.version.toList.count '^' = 0 ∧
             d.version.toList.count '~' = 0)
    ∧ (∀ (tree : FsForest) (content : String),
       rootFile tree "package.json" = none →
       rootFile tree "requirements.txt" = some (some content) →
       (splitLines content).all (fun l => (pipLineMatch l).isSome) = true →
       analyzeDependencies tree = .ok (pipDeps (splitLines content))
         ∧ (pipDeps (splitLines content)).length =
             (splitLines content).length
         ∧ ∀ d ∈ pipDeps (splitLines content),
             d.version.toList.count '^' = 0 ∧
             d.version.toList.count '~' = 0) := by
  constructor
  · intro tree content packageJson entries hpkg hreq hparse hlook hwf
    obtain ⟨deps, hdeps, hlen, hmk⟩ := npmDeps_spec entries hwf
    have hn : npmStage tree = .ok deps := by
      cases packageJson with
      | obj fields =>
        simp only [Js.lookup] at hlook
        simp [npmStage, hpkg, hparse, Js.lookup, hlook, jsTruthy, jsEntries, hdeps]
      | null => exact absurd hlook (by simp [Js.lookup])
      | bool b => exact absurd hlook (by simp [Js.lookup])
      | num lex => exact absurd hlook (by simp [Js.lookup])
      | str s => exact absurd hlook (by simp [Js.lookup])
      | arr elems => exact absurd hlook (by simp [Js.lookup])
    refine ⟨deps, ?_, hlen, hmk⟩
    simp [analyzeDependencies, hn, hreq]
  · intro tree content hpkg hreq hlines
    obtain ⟨hlen, hmk⟩ := pipDeps_spec _ hlines
    have hn : npmStage tree = .ok [] := by
      simp [npmStage, hpkg]
    refine ⟨?_, hlen, hmk⟩
    simp [analyzeDependencies, hn, hreq]

/-- Concrete instance of `dependency_manifest_roundtrip` on both manifest
kinds: two npm entries give two stripped records, two pip lines give two
records. -/
theorem dependency_manifest_roundtrip_witness
    : (∃ deps, analyzeDependencies npmOnlyTree = .ok deps
        ∧ deps.length = expressEntries.length
        ∧ ∀ d ∈ deps, d.version.toList.count '^' = 0 ∧
            d.version.toList.count '~' = 0)
    ∧ analyzeDependencies pipOnlyTree =
        .ok (pipDeps (splitLines ("flask==2.0.1\nnumpy==1.21.0"))) :=
  ⟨dependency_manifest_roundtrip.1 npmOnlyTree
      ("\x7b\"dependencies\": \x7b\"express\": \"^4.18.2\", \"lodash\": \"~4.17.21\"\x7d\x7d")
      (Js.obj [("dependencies", Js.obj expressEntries)]) expressEntries
      rfl rfl rfl rfl (by decide),
   (dependency_manifest_roundtrip.2 pipOnlyTree ("flask==2.0.1\nnumpy==1.21.0")
      rfl rfl (by decide)).1⟩

/-! ## C8: the largest file is the earliest maximum -/

lemma le_maxLines {l : List (String × Nat)} {g : String × Nat} (hg : g ∈ l) :
    g.2 ≤ maxLines l := by
  induction l with
  | nil => cases hg
  | cons f rest ih =>
    rcases List.mem_cons.mp hg with hg | hg
    · subst hg; simp [maxLines]
    · calc g.2 ≤ maxLines rest := ih hg
        _ ≤ maxLines (f :: rest) := by simp [maxLines]

lemma maxLines_cons (f : String × Nat) (l : List (String × Nat)) :
    maxLines (f :: l) = max f.2 (maxLines l) := rfl

lemma foldl_largestStep_lines (l : List (String × Nat)) (acc : LargestFile) :
    (l.foldl largestStep acc).lines = max acc.lines (maxLines l) := by
  induction l generalizing acc with
  | nil => simp [maxLines]
  | cons f rest ih =>
    rw [List.foldl_cons, ih, maxLines_cons]
    unfold largestStep
    split_ifs with h
    · simp only [Nat.max_def]
      split_ifs <;> omega
    · simp only [Nat.max_def]
      split_ifs <;> omega

lemma foldl_largestStep_structure (l : List (String × Nat)) (acc : LargestFile) :
    l.foldl largestStep acc = acc
    ∨ ∃ pre f post, l = pre ++ f :: post
        ∧ l.foldl largestStep acc = ⟨f.1, f.2⟩
        ∧ acc.lines < f.2
        ∧ ∀ g ∈ pre, g.2 ≤ acc.lines ∨ g.2 < f.2 := by
  induction l generalizing acc with
  | nil => exact .inl rfl
  | cons f0 rest ih =>
    rw [List.foldl_cons]
    by_cases h : f0.2 > acc.lines
    · have hstep : largestStep acc f0 = ⟨f0.1, f0.2⟩ := by
        simp [largestStep, h]
      rw [hstep]
      rcases ih ⟨f0.1, f0.2⟩ with heq | ⟨pre, f, post, hsplit, hres, hlt, hinv⟩
      · refine .inr ⟨[], f0, rest, by simp, ?_, h, by simp⟩
        rw [heq]
      · refine .inr ⟨f0 :: pre, f, post, by simp [hsplit], hres, ?_, ?_⟩
        · exact lt_trans h hlt
        · intro g hg
          rcases List.mem_cons.mp hg with hg | hg
          · subst hg; exact .inr hlt
          · rcases hinv g hg with hg2 | hg2
            · exact .inr (lt_of_le_of_lt hg2 hlt)
            · exact .inr hg2
    · have hstep : largestStep acc f0 = acc := by
        simp [largestStep, h]
      rw [hstep]
      rcases ih acc with heq | ⟨pre, f, post, hsplit, hres, hlt, hinv⟩
      · exact .inl heq
      · refine .inr ⟨f0 :: pre, f, post, by simp [hsplit], hres, hlt, ?_⟩
        intro g hg
        rcases List.mem_cons.mp hg with hg | hg
        · subst hg; exact .inl (by omega)
        · exact hinv g hg

lemma foldl_metricsStep_largestFile (l : List (String × Option String))
    (m : Metrics) :
    (l.foldl metricsStep m).largestFile =
      (l.filterMap (fun f => f.2.map (fun c => (f.1, lineCount c)))).foldl
        largestStep m.largestFile := by
  induction l generalizing m with
  | nil => simp
  | cons f rest ih =>
    rcases f with ⟨nm, co⟩
    cases co with
    | none => simpa [metricsStep] using ih _
    | some c => simpa [metricsStep] using ih _

lemma calculateMetrics_largestFile (tree : FsForest) :
    (calculateMetrics tree).largestFile =
      (readableCounts tree).foldl largestStep ⟨"", 0⟩ := by
  have h := foldl_metricsStep_largestFile (textFiles tree) ⟨0, 0, 0, ⟨"", 0⟩⟩
  simp only [calculateMetrics, readableCounts]
  split_ifs <;> exact h

lemma readableCounts_pos (tree : FsForest) :
    ∀ g ∈ readableCounts tree, 1 ≤ g.2 := by
  intro g hg
  unfold readableCounts at hg
  rw [List.mem_filterMap] at hg
  obtain ⟨f, -, hf⟩ := hg
  rcases f with ⟨nm, co⟩
  cases co with
  | none => simp at hf
  | some c =>
    simp only [Option.map_some] at hf
    cases hf
    simp [lineCount]

/-- C8: for every workspace tree with at least one readable text file, the
`largestFile` reported by `calculateMetrics` is the earliest file of the
traversal whose line count equals the maximum over all readable text files;
every strictly earlier file has a strictly smaller count, so a later file
with an equal count never overwrites the record. -/
theorem calculateMetrics_largest_is_first_max (tree : FsForest)
    (h : readableCounts tree ≠ []) :
    ∃ pre f post,
      readableCounts tree = pre ++ f :: post
      ∧ (calculateMetrics tree).largestFile = ⟨f.1, f.2⟩
      ∧ (∀ g ∈ readableCounts tree, g.2 ≤ f.2)
      ∧ (∀ g ∈ pre, g.2 < f.2) := by
  have hpos := readableCounts_pos tree
  have hlines := foldl_largestStep_lines (readableCounts tree) ⟨"", 0⟩
  rcases foldl_largestStep_structure (readableCounts tree) ⟨"", 0⟩ with
    heq | ⟨pre, f, post, hsplit, hres, hlt, hinv⟩
  · exfalso
    rcases List.exists_mem_of_ne_nil _ h with ⟨g, hg⟩
    have h1 : 1 ≤ g.2 := hpos g hg
    have h2 : g.2 ≤ maxLines (readableCounts tree) := le_maxLines hg
    rw [heq] at hlines
    simp at hlines
    omega
  · refine ⟨pre, f, post, hsplit, ?_, ?_, ?_⟩
    · rw [calculateMetrics_largestFile, hres]
    · intro g hg
      have h2 : g.2 ≤ maxLines (readableCounts tree) := le_maxLines hg
      rw [hres] at hlines
      simp at hlines
      omega
    · intro g hg
      have hmem : g ∈ readableCounts tree := by
        rw [hsplit]; exact List.mem_append_left _ hg
      have h1 := hpos g hmem
      rcases hinv g hg with h2 | h2
      · omega
      · exact h2

/-- Concrete instance of `calculateMetrics_largest_is_first_max` on a tree
with two equally long files. -/
theorem calculateMetrics_largest_witness
    : ∃ pre f post,
        readableCounts tieTree = pre ++ f :: post
        ∧ (calculateMetrics tieTree).largestFile = ⟨f.1, f.2⟩
        ∧ (∀ g ∈ readableCounts tieTree, g.2 ≤ f.2)
        ∧ (∀ g ∈ pre, g.2 < f.2) :=
  calculateMetrics_largest_is_first_max tieTree (by decide)

end AutoPilot
